import Mathlib

/-!
Shallow embedding of the emotion analytics core of the repository:
`fusion.py`, `culture_adapters.py`, the event-fetch path of
`analytics_logger.py`, and `emotion_forecaster.py`, together with theorems
settling the specification claims about them.

Python dicts are modelled as insertion-ordered association lists over
`String` keys with rational values; float arithmetic is modelled exactly
over `ℚ`, with `round(x, 1)` modelled by `pyRound1`.  Raised Python
exceptions are modelled by `Except Unit`.
-/

attribute [local semireducible] Rat.add Rat.mul Rat.inv Rat.sub

namespace EmotionCore

abbrev Dist := List (String × ℚ)

/-- Sum of the values of a dict, Python `sum(d.values())`. -/
def sumValues (d : Dist) : ℚ := (d.map Prod.snd).sum

/-- Python `round(q, 1)` (round to one decimal place). -/
def pyRound1 (q : ℚ) : ℚ := ((round (q * 10) : ℤ) : ℚ) / 10

/-- fusion.normalize_probabilities: if the total is `≤ 0` every label maps to
`0.0` (keys preserved); otherwise each value is divided by the total. -/
def normalize_probabilities (d : Dist) : Dist :=
  let total := sumValues d
  if total ≤ 0 then d.map (fun p => (p.1, (0 : ℚ)))
  else d.map (fun p => (p.1, p.2 / total))

/-- `defaultdict(float)` accumulation `agg[k] += v`: an existing key keeps
its position and is incremented, a new key is appended at the end. -/
def addTo (d : Dist) (k : String) (v : ℚ) : Dist :=
  match d with
  | [] => [(k, v)]
  | p :: rest => if p.1 = k then (p.1, p.2 + v) :: rest else p :: addTo rest k v

/-- Python `max(items, key=lambda kv: kv[1])`: the first maximal element
wins ties (the accumulator is replaced only on a strictly greater value). -/
def pyMaxBySnd (p : String × ℚ) (l : List (String × ℚ)) : String × ℚ :=
  l.foldl (fun cur x => if cur.2 < x.2 then x else cur) p

/-- The accumulation loop of fusion.fuse_emotions: modalities with an empty
distribution are skipped; otherwise each normalized probability is added to
the accumulator with weight `weight * prob * (confidence / 100)`. -/
def aggregateModalities (modalities : List (String × ℚ × Dist)) (weights : Dist) : Dist :=
  modalities.foldl
    (fun agg m =>
      if m.2.2 = [] then agg
      else
        let weight := (weights.lookup m.1).getD 1
        (normalize_probabilities m.2.2).foldl
          (fun a p => addTo a p.1 (weight * p.2 * (m.2.1 / 100))) agg)
    []

/-- fusion.fuse_emotions.  The `[] => (none, 0, [])` arm of the inner match
is unreachable (normalizing a non-empty dict yields a non-empty dict); it is
present only to make the match total. -/
def fuse_emotions (modalities : List (String × ℚ × Dist)) (weights : Dist) :
    Option String × ℚ × Dist :=
  let aggregated := aggregateModalities modalities weights
  if aggregated = [] then (none, 0, [])
  else
    match normalize_probabilities aggregated with
    | [] => (none, 0, [])
    | f :: fs =>
      let dominant := pyMaxBySnd f fs
      (some dominant.1, pyRound1 (dominant.2 * 100),
        (f :: fs).map (fun p => (p.1, pyRound1 (p.2 * 100))))

/-! culture_adapters.py -/

/-- Python `str.lower()` (ASCII model, faithful on the labels in use). -/
def lowerStr (s : String) : String := String.mk (s.data.map Char.toLower)

/-- Python `str.strip()`. -/
def trimStr (s : String) : String :=
  String.mk (((s.data.dropWhile Char.isWhitespace).reverse.dropWhile
    Char.isWhitespace).reverse)

/-- Python `str.title()` on the single-word emotion labels in use. -/
def titleStr (s : String) : String :=
  match s.data with
  | [] => ""
  | c :: cs => String.mk (c.toUpper :: cs.map Char.toLower)

def DEFAULT_CULTURE : String := "global"

def SUPPORTED_CULTURES : List (String × String) :=
  [("global", "Global"), ("indian", "Indian"), ("japanese", "Japanese"),
   ("american", "American")]

/-- The `probability_weights` entries of `_CULTURE_LIBRARY`:
culture code → modality name → emotion label → multiplier. -/
def CULTURE_WEIGHTS : List (String × List (String × Dist)) :=
  [("global", []),
   ("indian",
     [("face", [("neutral", 9/10), ("happy", 11/10), ("sad", 21/20), ("angry", 19/20)]),
      ("voice", [("neutral", 19/20), ("happy", 21/20), ("sad", 11/10), ("angry", 9/10)]),
      ("text", [("neutral", 9/10), ("happy", 21/20), ("sad", 11/10)])]),
   ("japanese",
     [("face", [("neutral", 23/20), ("happy", 19/20), ("sad", 21/20)]),
      ("voice", [("neutral", 11/10), ("happy", 19/20), ("sad", 21/20)]),
      ("text", [("neutral", 11/10), ("happy", 19/20), ("fear", 21/20)])]),
   ("american",
     [("face", [("happy", 11/10), ("surprise", 21/20), ("neutral", 19/20)]),
      ("voice", [("happy", 11/10), ("angry", 21/20), ("neutral", 9/10)]),
      ("text", [("happy", 11/10), ("surprise", 21/20), ("fear", 19/20)])])]

/-- culture_adapters.normalize_culture: `None` or the empty string fall back
to the default culture, otherwise the trimmed lower-cased code when it is
supported, else again the default. -/
def normalize_culture (code : Option String) : String :=
  match code with
  | none => DEFAULT_CULTURE
  | some c =>
    if c = "" then DEFAULT_CULTURE
    else
      let lowered := lowerStr (trimStr c)
      if (SUPPORTED_CULTURES.lookup lowered).isSome then lowered else DEFAULT_CULTURE

/-- Python dict assignment `d[k] = v`: an existing key keeps its position
and has its value replaced, a new key is appended at the end. -/
def setKey (d : Dist) (k : String) (v : ℚ) : Dist :=
  match d with
  | [] => [(k, v)]
  | p :: rest => if p.1 = k then (k, v) :: rest else p :: setKey rest k v

/-- culture_adapters.adjust_probabilities. -/
def adjust_probabilities (probabilities : Dist) (culture : Option String)
    (modality : String) : Dist :=
  let normalized := normalize_culture culture
  if probabilities = [] then []
  else
    let weights := ((CULTURE_WEIGHTS.lookup normalized).getD []).lookup modality |>.getD []
    let weighted := probabilities.foldl
      (fun acc p =>
        if p.2 ≤ 0 then acc
        else setKey acc (lowerStr p.1) (p.2 * ((weights.lookup (lowerStr p.1)).getD 1)))
      []
    if weighted = [] then
      probabilities.foldl
        (fun acc p => if 0 < p.2 then setKey acc (lowerStr p.1) p.2 else acc) []
    else
      let total := sumValues weighted
      if total ≤ 0 then weighted.map (fun p => (p.1, (0 : ℚ)))
      else weighted.map (fun p => (p.1, pyRound1 (p.2 / total * 100)))

/-! Event fetch path of analytics_logger.py and emotion_forecaster.py.
Times are rational hours since a Monday-midnight epoch; a calendar date is
modelled by its day index `⌊t / 24⌋`. -/

/-- A raw row of the `emotion_events` table as read by
analytics_logger.fetch_events, restricted to the columns the forecaster
uses.  `timestamp` holds the result of attempting to parse the stored
timestamp string (`none` = unparseable); `emotion` is `none` for a null
emotion. -/
structure RawEvent where
  timestamp : Option ℚ
  emotion : Option String
  confidence : ℚ
deriving DecidableEq, Repr

structure Event where
  timestamp : ℚ
  emotion : String
  confidence : ℚ
deriving DecidableEq, Repr

/-- analytics_logger.fetch_events: an empty result is returned before any
timestamp handling; otherwise `pd.to_datetime(df["timestamp"])` runs with
the default `errors="raise"`, so a single unparseable timestamp raises. -/
def fetch_events (rows : List RawEvent) : Except Unit (List RawEvent) :=
  if rows = [] then .ok []
  else if rows.all (fun r => r.timestamp.isSome) then .ok rows
  else .error ()

/-- EmotionForecaster._load_history: re-parse timestamps with
`errors="coerce"`, drop rows with a missing timestamp, keep rows whose
emotion is not null. -/
def load_history (rows : List RawEvent) : Except Unit (List Event) :=
  match fetch_events rows with
  | .error e => .error e
  | .ok df =>
    if df = [] then .ok []
    else .ok (df.filterMap (fun r =>
      match r.timestamp, r.emotion with
      | some t, some e => some ⟨t, e, r.confidence⟩
      | _, _ => none))

def WEEKDAY_NAMES : List String :=
  ["Monday", "Tuesday", "Wednesday", "Thursday", "Friday", "Saturday", "Sunday"]

/-- Calendar date of a time, as a day index (models `.date()`). -/
def dayIndex (t : ℚ) : ℤ := Int.floor (t / 24)

/-- pandas `.day_name()` under the Monday-midnight epoch convention. -/
def dayName (t : ℚ) : String := WEEKDAY_NAMES.getD ((dayIndex t) % 7).toNat ""

/-- Hour-of-day component of a time (models `.hour`). -/
def hourOf (t : ℚ) : ℤ := (Int.floor t) % 24

/-- Minute component of a time (models `.minute`). -/
def minuteOf (t : ℚ) : ℤ := (Int.floor (t * 60)) % 60

/-- Two-digit zero-padded rendering used by `strftime("%H:%M")`. -/
def pad2 (n : ℤ) : String := if n < 10 then "0" ++ toString n else toString n

/-- A row of the dataframe built by EmotionForecaster._prepare. -/
structure PreparedEvent where
  timestamp : ℚ
  emotion : String
  confidence : ℚ
  hoursAgo : ℚ
  weekday : String
  hourBlock : ℤ
deriving DecidableEq, Repr

def insertEventDesc (x : PreparedEvent) : List PreparedEvent → List PreparedEvent
  | [] => [x]
  | y :: ys => if y.timestamp < x.timestamp then x :: y :: ys else y :: insertEventDesc x ys

/-- `sort_values("timestamp", ascending=False)`. -/
def sortEventsDesc (l : List PreparedEvent) : List PreparedEvent := l.foldr insertEventDesc []

/-- EmotionForecaster._prepare: lower-case the emotion, compute hours
elapsed, the weekday name and the 6-hour block, sort most recent first. -/
def prepareEvents (history : List Event) (now : ℚ) : List PreparedEvent :=
  sortEventsDesc (history.map (fun e =>
    { timestamp := e.timestamp, emotion := lowerStr e.emotion,
      confidence := e.confidence, hoursAgo := now - e.timestamp,
      weekday := dayName e.timestamp, hourBlock := (hourOf e.timestamp / 6) * 6 }))

/-- Lexicographic codepoint order on strings (Python `<` on str). -/
def charListLt : List Char → List Char → Bool
  | [], [] => false
  | [], _ :: _ => true
  | _ :: _, [] => false
  | a :: as, b :: bs => if a < b then true else if b < a then false else charListLt as bs

def strLt (s t : String) : Bool := charListLt s.data t.data

/-- Sorted insertion of a key, skipping duplicates. -/
def insertKey (k : String) : List String → List String
  | [] => [k]
  | t :: ts => if strLt k t then k :: t :: ts else if k = t then t :: ts else t :: insertKey k ts

/-- The distinct keys of a pandas groupby, in sorted order (pandas sorts
group keys ascending by default). -/
def sortedKeysOf (ks : List String) : List String := ks.foldl (fun acc k => insertKey k acc) []

def valuesFor (rows : List (String × ℚ)) (k : String) : List ℚ :=
  (rows.filter (fun r => decide (r.1 = k))).map Prod.snd

/-- `groupby(key)[val].sum().to_dict()`. -/
def groupSum (rows : List (String × ℚ)) : Dist :=
  (sortedKeysOf (rows.map Prod.fst)).map (fun k => (k, (valuesFor rows k).sum))

/-- `groupby(key)[val].mean().to_dict()`. -/
def groupMean (rows : List (String × ℚ)) : Dist :=
  (sortedKeysOf (rows.map Prod.fst)).map
    (fun k => (k, (valuesFor rows k).sum / ((valuesFor rows k).length : ℚ)))

/-- `groupby(key).size().to_dict()` with sizes as floats. -/
def groupCount (rows : List String) : Dist :=
  (sortedKeysOf rows).map
    (fun k => (k, ((rows.filter (fun r => decide (r = k))).length : ℚ)))

/-- EmotionForecaster._normalize: keep strictly positive entries, clamp at 0,
return `{}` when the total is not positive, else divide by the total. -/
def forecastNormalize (scores : Dist) : Dist :=
  let filtered := (scores.filter (fun p => decide (0 < p.2))).map (fun p => (p.1, max p.2 0))
  let total := sumValues filtered
  if total ≤ 0 then [] else filtered.map (fun p => (p.1, p.2 / total))

def RECENCY_WINDOW_HOURS : ℚ := 36

/-- EmotionForecaster._recent_distribution.  The recency weight
`math.exp(-hours / RECENCY_HALFLIFE_HOURS)` (half-life 12) is
transcendental, so the development is parametric in the weight function
`decay`; every theorem below holds for all `decay`, in particular for the
exponential one, and the concrete evaluations are arranged so that `decay`
is never applied. -/
def recent_distribution (decay : ℚ → ℚ) (df : List PreparedEvent) : Dist :=
  let recent := df.filter (fun e => decide (e.hoursAgo ≤ RECENCY_WINDOW_HOURS))
  if recent = [] then []
  else forecastNormalize (groupSum (recent.map (fun e => (e.emotion, decay e.hoursAgo))))

/-- EmotionForecaster._pattern_distribution with its weekday/block → block →
whole-history fallback chain. -/
def pattern_distribution (df : List PreparedEvent) (target : ℚ) : Dist :=
  let weekday := dayName target
  let block := (hourOf target / 6) * 6
  let subset1 := df.filter (fun e => decide (e.weekday = weekday) && decide (e.hourBlock = block))
  let subset2 := if subset1 = [] then df.filter (fun e => decide (e.hourBlock = block)) else subset1
  let subset := if subset2 = [] then df else subset2
  forecastNormalize (groupMean (subset.map (fun e => (e.emotion, e.confidence))))

/-- EmotionForecaster._overall_distribution. -/
def overall_distribution (df : List PreparedEvent) : Dist :=
  forecastNormalize (groupCount (df.map (fun e => e.emotion)))

def distGet (d : Dist) (k : String) : ℚ := (d.lookup k).getD 0

/-- EmotionForecaster._combine_distributions.  The union of the label sets
is a Python `set`, whose iteration order is unspecified; it is modelled in
sorted label order, which only matters for exact ties in the later ranking. -/
def combine_distributions (recentWeight patternWeight : ℚ) (recent pattern : Dist) : Dist :=
  let emotions := sortedKeysOf (recent.map Prod.fst ++ pattern.map Prod.fst)
  if emotions = [] then []
  else forecastNormalize (emotions.map (fun e =>
    (e, recentWeight * distGet recent e + patternWeight * distGet pattern e)))

def ALERT_PROFILES : List (String × String × String) :=
  [("happy", "positive",
    "Ride the upbeat energy—plan something celebratory or share the joy with someone."),
   ("surprise", "info",
    "Stay flexible—surprises may pop up, so leave a little room in your schedule."),
   ("neutral", "info",
    "A balanced window ahead—use it to maintain healthy routines and rest."),
   ("sad", "warning",
    "Line up supportive rituals—message a friend, prepare comforting music, or plan a walk."),
   ("angry", "critical",
    "Consider proactive stress relief: breathing breaks, journaling, or a quick workout."),
   ("fear", "warning",
    "Note possible anxiety triggers—schedule grounding moments and reduce unnecessary commitments.")]

/-- EmotionForecaster._alert_profile (level, message). -/
def alert_profile (emotion : String) : String × String :=
  (ALERT_PROFILES.lookup (lowerStr emotion)).getD
    ("info", "Keep mindful of upcoming moments and check in with yourself ahead of time.")

/-- EmotionForecaster._time_bucket. -/
def time_bucket (hour : ℤ) : String :=
  if 5 ≤ hour ∧ hour < 12 then "morning"
  else if 12 ≤ hour ∧ hour < 17 then "afternoon"
  else if 17 ≤ hour ∧ hour < 21 then "evening"
  else "night"

/-- Python format `{x:.0f}` (render rounded to an integer). -/
def fmt0 (q : ℚ) : String := toString (round q : ℤ)

/-- EmotionForecaster._build_insights. -/
def build_insights (slotTime : ℚ) (emotion : String)
    (recencyWeights patternWeights combinedWeights : Dist)
    (secondary : Option (String × ℚ)) : List String :=
  let bucketLabel := time_bucket (hourOf slotTime)
  let recencyShare := distGet recencyWeights emotion * 100
  let patternShare := distGet patternWeights emotion * 100
  let combinedShare := distGet combinedWeights emotion * 100
  let insights :=
    ["Recent " ++ titleStr emotion ++ " signals account for " ++ fmt0 recencyShare ++
       "% of the forecast strength.",
     "Typical " ++ dayName slotTime ++ " " ++ bucketLabel ++ " patterns add " ++
       fmt0 patternShare ++ "% support.",
     "Overall likelihood sits near " ++ fmt0 combinedShare ++ "% based on available history."]
  match secondary with
  | some s =>
    let gap := combinedShare - s.2 * 100
    if gap < 12 then
      insights ++ ["Watch for " ++ titleStr s.1 ++ " as a secondary possibility (within " ++
        fmt0 |gap| ++ "% of the leader)."]
    else insights
  | none => insights

def shiftSentence (prev top : String) : String :=
  "Shift from " ++ titleStr prev ++ " trend → " ++ titleStr top ++
    " outlook; prepare for the change."

/-- EmotionForecaster._resolve_slot_label.  The comparison with
`pd.Timestamp.now().date()` reads the ambient wall clock, modelled by the
explicit argument `today` (a day index). -/
def resolve_slot_label (label : String) (target : ℚ) (today : ℤ) : String :=
  if label = "Later today" ∧ dayIndex target ≠ today then
    "Soon (" ++ dayName target ++ " " ++ pad2 (hourOf target) ++ ":" ++
      pad2 (minuteOf target) ++ ")"
  else if label = "Tomorrow" then "Tomorrow (" ++ dayName target ++ ")"
  else if label = "Upcoming few days" then dayName target ++ " outlook"
  else label

structure ForecastInsight where
  label : String
  timestamp : ℚ
  emotion : String
  confidence : ℚ
  alertLevel : String
  message : String
  insights : List String
  secondary : Option (String × ℚ)
deriving DecidableEq, Repr

/-- All components of a ForecastInsight except the displayed slot label. -/
def stripLabel (i : ForecastInsight) :
    ℚ × String × ℚ × String × String × List String × Option (String × ℚ) :=
  (i.timestamp, i.emotion, i.confidence, i.alertLevel, i.message, i.insights, i.secondary)

/-- Stable insertion for `sorted(items, key=snd, reverse=True)`. -/
def insertDescBySnd (x : String × ℚ) : List (String × ℚ) → List (String × ℚ)
  | [] => [x]
  | y :: ys => if y.2 < x.2 then x :: y :: ys else y :: insertDescBySnd x ys

/-- Python `sorted(items, key=lambda kv: kv[1], reverse=True)` (stable). -/
def sortDescBySnd (l : List (String × ℚ)) : List (String × ℚ) := l.foldr insertDescBySnd []

def SLOT_DEFINITIONS : List (String × ℚ) :=
  [("Later today", 6), ("Tomorrow", 24), ("Upcoming few days", 72)]

/-- Lines 62-65 of generate_forecast: the per-slot combined distribution,
including the fallback to the overall distribution when combining is empty. -/
def slotCombined (prepared : List PreparedEvent) (recencyWeights : Dist) (target : ℚ) : Dist :=
  let patternWeights := pattern_distribution prepared target
  let combined0 := combine_distributions (6/10) (4/10) recencyWeights patternWeights
  if combined0 = [] then overall_distribution prepared else combined0

/-- The body of the per-slot loop of generate_forecast; the state threads
the emitted insights and the previous slot's dominant emotion. -/
def slotStep (prepared : List PreparedEvent) (recencyWeights : Dist) (now : ℚ) (today : ℤ)
    (st : List ForecastInsight × Option String) (slot : String × ℚ) :
    List ForecastInsight × Option String :=
  let target := now + slot.2
  let slotLabel := resolve_slot_label slot.1 target today
  let patternWeights := pattern_distribution prepared target
  let combined := slotCombined prepared recencyWeights target
  if combined = [] then st
  else
    match sortDescBySnd combined with
    | [] => st
    | top :: rest =>
      let secondary := rest.head?
      let confidence := pyRound1 (min (top.2 * 100) 100)
      let alert := alert_profile top.1
      let base := build_insights target top.1 recencyWeights patternWeights combined secondary
      let insights :=
        match st.2 with
        | some prev => if prev ≠ "" ∧ prev ≠ top.1 then base ++ [shiftSentence prev top.1] else base
        | none => base
      (st.1 ++ [{ label := slotLabel, timestamp := target, emotion := top.1,
                  confidence := confidence, alertLevel := alert.1, message := alert.2,
                  insights := insights, secondary := secondary }],
       some top.1)

def forecastLoop (prepared : List PreparedEvent) (recencyWeights : Dist)
    (now : ℚ) (today : ℤ) : List ForecastInsight :=
  (SLOT_DEFINITIONS.foldl (slotStep prepared recencyWeights now today) ([], none)).1

/-- Lines 52-54 of generate_forecast: an empty recency distribution is
replaced by the overall frequency distribution. -/
def recencyBase (decay : ℚ → ℚ) (prepared : List PreparedEvent) : Dist :=
  if recent_distribution decay prepared = [] then overall_distribution prepared
  else recent_distribution decay prepared

/-- EmotionForecaster.generate_forecast after the history has been loaded. -/
def generateForecastFromHistory (decay : ℚ → ℚ) (history : List Event)
    (now : ℚ) (today : ℤ) : List ForecastInsight :=
  if history = [] then []
  else
    forecastLoop (prepareEvents history now)
      (recencyBase decay (prepareEvents history now)) now today

/-- EmotionForecaster.generate_forecast, including the event fetch. -/
def generate_forecast (decay : ℚ → ℚ) (rows : List RawEvent) (now : ℚ) (today : ℤ) :
    Except Unit (List ForecastInsight) :=
  match load_history rows with
  | .error e => .error e
  | .ok history => .ok (generateForecastFromHistory decay history now today)

/-! Helper lemmas. -/

theorem sum_map_div (l : List ℚ) (t : ℚ) :
    (l.map (fun x => x / t)).sum = l.sum / t := by
  induction l with
  | nil => simp
  | cons a as ih => simp [ih, add_div]

theorem map_fst_map_pair (f : String × ℚ → ℚ) (d : Dist) :
    (d.map (fun p => (p.1, f p))).map Prod.fst = d.map Prod.fst := by
  induction d with
  | nil => rfl
  | cons p rest ih => simp [ih]

theorem sumValues_nonneg (d : Dist) (h : ∀ p ∈ d, 0 ≤ p.2) : 0 ≤ sumValues d := by
  unfold sumValues
  refine List.sum_nonneg ?_
  intro x hx
  obtain ⟨p, hp, rfl⟩ := List.mem_map.mp hx
  exact h p hp

theorem sumValues_pos (d : Dist) (hne : d ≠ []) (h : ∀ p ∈ d, 0 < p.2) :
    0 < sumValues d := by
  cases d with
  | nil => exact absurd rfl hne
  | cons p rest =>
    have h1 : 0 < p.2 := h p (List.mem_cons_self p rest)
    have h2 : 0 ≤ sumValues rest :=
      sumValues_nonneg rest (fun q hq => le_of_lt (h q (List.mem_cons_of_mem p hq)))
    have : sumValues (p :: rest) = p.2 + sumValues rest := by simp [sumValues]
    rw [this]
    exact add_pos_of_pos_of_nonneg h1 h2

theorem normalize_probabilities_fst (d : Dist) :
    (normalize_probabilities d).map Prod.fst = d.map Prod.fst := by
  simp only [normalize_probabilities]
  split
  · exact map_fst_map_pair _ d
  · exact map_fst_map_pair _ d

theorem normalize_probabilities_ne_nil (d : Dist) (h : d ≠ []) :
    normalize_probabilities d ≠ [] := by
  simp only [normalize_probabilities]
  split
  · simpa using h
  · simpa using h

theorem addTo_fst (d : Dist) (k : String) (v : ℚ) :
    (addTo d k v).map Prod.fst =
      if k ∈ d.map Prod.fst then d.map Prod.fst else d.map Prod.fst ++ [k] := by
  induction d with
  | nil => simp [addTo]
  | cons p rest ih =>
    by_cases hk : p.1 = k
    · simp [addTo, hk]
    · have hne : ¬ k = p.1 := fun hc => hk hc.symm
      simp only [addTo, if_neg hk, List.map_cons, List.mem_cons, ih]
      by_cases hmem : k ∈ rest.map Prod.fst
      · simp [hmem, hne]
      · simp [hmem, hne]

theorem addTo_nodup (d : Dist) (k : String) (v : ℚ)
    (h : (d.map Prod.fst).Nodup) : ((addTo d k v).map Prod.fst).Nodup := by
  rw [addTo_fst]
  split
  · exact h
  · next hk =>
    simp only [List.nodup_append, List.nodup_cons, List.nodup_nil]
    refine ⟨h, by simp, ?_⟩
    intro a ha
    simp only [List.mem_singleton]
    intro hak
    exact hk (hak ▸ ha)

theorem foldl_addTo_nodup (l : Dist) (f : String × ℚ → ℚ) (agg : Dist)
    (h : (agg.map Prod.fst).Nodup) :
    ((l.foldl (fun a p => addTo a p.1 (f p)) agg).map Prod.fst).Nodup := by
  induction l generalizing agg with
  | nil => exact h
  | cons p rest ih => exact ih _ (addTo_nodup agg p.1 (f p) h)

theorem pyMaxBySnd_mem (p : String × ℚ) (l : List (String × ℚ)) :
    pyMaxBySnd p l ∈ p :: l := by
  induction l generalizing p with
  | nil => simp [pyMaxBySnd]
  | cons x xs ih =>
    have step : pyMaxBySnd p (x :: xs) = pyMaxBySnd (if p.2 < x.2 then x else p) xs := by
      simp [pyMaxBySnd]
    rw [step]
    have hmem := ih (if p.2 < x.2 then x else p)
    rcases List.mem_cons.mp hmem with h | h
    · rw [h]
      split
      · simp
      · simp
    · simp [h]

theorem pyMaxBySnd_le (p : String × ℚ) (l : List (String × ℚ)) :
    ∀ x ∈ p :: l, x.2 ≤ (pyMaxBySnd p l).2 := by
  induction l generalizing p with
  | nil =>
    intro x hx
    rcases List.mem_cons.mp hx with h | h
    · rw [h]; simp [pyMaxBySnd]
    · cases h
  | cons y ys ih =>
    intro x hx
    have step : pyMaxBySnd p (y :: ys) = pyMaxBySnd (if p.2 < y.2 then y else p) ys := by
      simp [pyMaxBySnd]
    rw [step]
    have hstart : p.2 ≤ (if p.2 < y.2 then y else p).2 ∧
        y.2 ≤ (if p.2 < y.2 then y else p).2 := by
      split
      · next hlt => exact ⟨le_of_lt hlt, le_refl _⟩
      · next hge => exact ⟨le_refl _, not_lt.mp hge⟩
    have hrec := ih (if p.2 < y.2 then y else p)
    rcases List.mem_cons.mp hx with h | h
    · rw [h]
      exact le_trans hstart.1 (hrec _ (List.mem_cons_self _ _))
    · rcases List.mem_cons.mp h with h2 | h2
      · rw [h2]
        exact le_trans hstart.2 (hrec _ (List.mem_cons_self _ _))
      · exact hrec x (List.mem_cons_of_mem _ h2)

theorem lookup_eq_of_nodup (l : Dist) (k : String) (v : ℚ)
    (hnd : (l.map Prod.fst).Nodup) (hm : (k, v) ∈ l) : l.lookup k = some v := by
  induction l with
  | nil => cases hm
  | cons p rest ih =>
    rcases List.mem_cons.mp hm with h | h
    · rw [← h]
      simp [List.lookup]
    · have hk : p.1 ≠ k := by
        intro hc
        have : p.1 ∈ rest.map Prod.fst := by
          rw [hc]
          exact List.mem_map.mpr ⟨(k, v), h, rfl⟩
        exact (List.nodup_cons.mp hnd).1 this
      have hbeq : (k == p.1) = false := beq_false_of_ne (fun hc => hk hc.symm)
      simp only [List.lookup, hbeq]
      exact ih (List.nodup_cons.mp hnd).2 h

theorem pyRound1_mono {a b : ℚ} (h : a ≤ b) : pyRound1 a ≤ pyRound1 b := by
  unfold pyRound1
  have hr : (round (a * 10) : ℤ) ≤ round (b * 10) := by
    rw [round_eq, round_eq]
    exact Int.floor_le_floor (by linarith)
  have hq : ((round (a * 10) : ℤ) : ℚ) ≤ ((round (b * 10) : ℤ) : ℚ) := by exact_mod_cast hr
  linarith

theorem pyRound1_zero : pyRound1 0 = 0 := by decide

theorem pyRound1_hundred : pyRound1 100 = 100 := by decide

theorem pyRound1_nonneg {q : ℚ} (h : 0 ≤ q) : 0 ≤ pyRound1 q := by
  have := pyRound1_mono h
  rwa [pyRound1_zero] at this

theorem pyRound1_le_hundred {q : ℚ} (h : q ≤ 100) : pyRound1 q ≤ 100 := by
  have := pyRound1_mono h
  rwa [pyRound1_hundred] at this

theorem mem_insertDescBySnd {x a : String × ℚ} {l : List (String × ℚ)}
    (h : x ∈ insertDescBySnd a l) : x = a ∨ x ∈ l := by
  induction l with
  | nil => simpa [insertDescBySnd] using h
  | cons y ys ih =>
    simp only [insertDescBySnd] at h
    split at h
    · rcases List.mem_cons.mp h with h1 | h1
      · exact Or.inl h1
      · exact Or.inr h1
    · rcases List.mem_cons.mp h with h1 | h1
      · exact Or.inr (by simp [h1])
      · rcases ih h1 with h2 | h2
        · exact Or.inl h2
        · exact Or.inr (List.mem_cons_of_mem _ h2)

theorem mem_sortDescBySnd {x : String × ℚ} {l : List (String × ℚ)}
    (h : x ∈ sortDescBySnd l) : x ∈ l := by
  induction l with
  | nil => simp [sortDescBySnd] at h
  | cons y ys ih =>
    simp only [sortDescBySnd, List.foldr_cons] at h
    rcases mem_insertDescBySnd h with h1 | h1
    · simp [h1]
    · exact List.mem_cons_of_mem _ (ih h1)

theorem forecastNormalize_nonneg (d : Dist) : ∀ x ∈ forecastNormalize d, 0 ≤ x.2 := by
  intro x hx
  simp only [forecastNormalize] at hx
  split at hx
  · cases hx
  · next htot =>
    obtain ⟨y, hy, rfl⟩ := List.mem_map.mp hx
    obtain ⟨z, _, rfl⟩ := List.mem_map.mp hy
    exact div_nonneg (le_max_right _ _) (le_of_lt (not_le.mp htot))

theorem combine_distributions_nonneg (w1 w2 : ℚ) (r p : Dist) :
    ∀ x ∈ combine_distributions w1 w2 r p, 0 ≤ x.2 := by
  intro x hx
  simp only [combine_distributions] at hx
  split at hx
  · cases hx
  · exact forecastNormalize_nonneg _ x hx

theorem overall_distribution_nonneg (df : List PreparedEvent) :
    ∀ x ∈ overall_distribution df, 0 ≤ x.2 :=
  fun x hx => forecastNormalize_nonneg _ x hx

theorem build_insights_length (slotTime : ℚ) (emotion : String)
    (rw pw cw : Dist) (secondary : Option (String × ℚ)) :
    3 ≤ (build_insights slotTime emotion rw pw cw secondary).length := by
  cases secondary with
  | none => simp [build_insights]
  | some s =>
    simp only [build_insights]
    split <;> simp

theorem foldl_fuseStep_nodup (modalities : List (String × ℚ × Dist)) (weights : Dist)
    (agg : Dist) (h : (agg.map Prod.fst).Nodup) :
    ((modalities.foldl (fun agg m =>
        if m.2.2 = [] then agg
        else (normalize_probabilities m.2.2).foldl
          (fun a p => addTo a p.1 ((weights.lookup m.1).getD 1 * p.2 * (m.2.1 / 100))) agg)
      agg).map Prod.fst).Nodup := by
  induction modalities generalizing agg with
  | nil => exact h
  | cons m ms ih =>
    simp only [List.foldl_cons]
    apply ih
    split
    · exact h
    · exact foldl_addTo_nodup _ _ _ h

theorem aggregate_nodup (modalities : List (String × ℚ × Dist)) (weights : Dist) :
    ((aggregateModalities modalities weights).map Prod.fst).Nodup := by
  have h := foldl_fuseStep_nodup modalities weights [] (by simp)
  simpa [aggregateModalities] using h

theorem foldl_fuseStep_filter (modalities : List (String × ℚ × Dist)) (weights : Dist)
    (agg : Dist) :
    modalities.foldl (fun agg m =>
        if m.2.2 = [] then agg
        else (normalize_probabilities m.2.2).foldl
          (fun a p => addTo a p.1 ((weights.lookup m.1).getD 1 * p.2 * (m.2.1 / 100))) agg)
      agg
    = (modalities.filter (fun m => decide (m.2.2 ≠ []))).foldl (fun agg m =>
        if m.2.2 = [] then agg
        else (normalize_probabilities m.2.2).foldl
          (fun a p => addTo a p.1 ((weights.lookup m.1).getD 1 * p.2 * (m.2.1 / 100))) agg)
      agg := by
  induction modalities generalizing agg with
  | nil => rfl
  | cons m ms ih =>
    by_cases hm : m.2.2 = []
    · simp only [List.foldl_cons, List.filter_cons, hm, if_pos rfl]
      simpa [hm] using ih agg
    · simp only [List.foldl_cons, List.filter_cons]
      rw [if_neg hm]
      simp only [hm, decide_not]
      simpa [hm] using ih ((normalize_probabilities m.2.2).foldl
        (fun a p => addTo a p.1 ((weights.lookup m.1).getD 1 * p.2 * (m.2.1 / 100))) agg)

theorem setKey_fresh (d : Dist) (k : String) (v : ℚ) (h : k ∉ d.map Prod.fst) :
    setKey d k v = d ++ [(k, v)] := by
  induction d with
  | nil => rfl
  | cons p rest ih =>
    have hk : p.1 ≠ k := by
      intro hc
      exact h (by simp [hc])
    simp only [setKey, if_neg hk, List.cons_append]
    rw [ih (fun hc => h (List.mem_cons_of_mem _ hc))]

theorem adjust_fold_unit (w : Dist) (d acc : Dist)
    (hpos : ∀ p ∈ d, 0 < p.2)
    (hlow : ∀ p ∈ d, lowerStr p.1 = p.1)
    (hw : ∀ p ∈ d, ((w.lookup (lowerStr p.1)).getD 1) = 1)
    (hnd : ((acc ++ d).map Prod.fst).Nodup) :
    d.foldl (fun acc p =>
        if p.2 ≤ 0 then acc
        else setKey acc (lowerStr p.1) (p.2 * ((w.lookup (lowerStr p.1)).getD 1))) acc
      = acc ++ d := by
  induction d generalizing acc with
  | nil => simp
  | cons p rest ih =>
    have hp : 0 < p.2 := hpos p (by simp)
    have hl : lowerStr p.1 = p.1 := hlow p (by simp)
    have hwp : ((w.lookup (lowerStr p.1)).getD 1) = 1 := hw p (by simp)
    rw [hl] at hwp
    simp only [List.foldl_cons, if_neg (not_le.mpr hp), hl, hwp, mul_one]
    have hfresh : p.1 ∉ acc.map Prod.fst := by
      intro hc
      have hnd2 : (acc.map Prod.fst ++ (p :: rest).map Prod.fst).Nodup := by
        simpa using hnd
      rw [List.nodup_append] at hnd2
      exact hnd2.2.2 hc (by simp)
    rw [setKey_fresh acc p.1 p.2 hfresh]
    have hnd3 : (((acc ++ [(p.1, p.2)]) ++ rest).map Prod.fst).Nodup := by
      have : acc ++ [(p.1, p.2)] = acc ++ [p] := by simp
      rw [this, ← List.append_cons]
      exact hnd
    rw [ih (acc ++ [(p.1, p.2)])
      (fun q hq => hpos q (List.mem_cons_of_mem _ hq))
      (fun q hq => hlow q (List.mem_cons_of_mem _ hq))
      (fun q hq => hw q (List.mem_cons_of_mem _ hq)) hnd3]
    simp

/-! Claim theorems for the fusion and cultural adjustment engines. -/

/-- Claim C1: fusing face (confidence 80, {happy: 80, sad: 20}) and voice
(confidence 60, {happy: 40, sad: 60}) with an empty weights map yields
dominant "happy", confidence 62.9 and distribution {happy: 62.9, sad: 37.1}. -/
theorem C1_fuse_worked_example :
    fuse_emotions
      [("face", 80, [("happy", 80), ("sad", 20)]),
       ("voice", 60, [("happy", 40), ("sad", 60)])] []
      = (some "happy", 629/10, [("happy", 629/10), ("sad", 371/10)]) := by decide

/-- Claim C2: normalize maps every key to 0 when the total is not positive
(preserving the key set, never failing), and otherwise divides each value by
the total so that the results sum to exactly 1. -/
theorem C2_normalize_spec (d : Dist) :
    (sumValues d ≤ 0 → normalize_probabilities d = d.map (fun p => (p.1, (0 : ℚ)))) ∧
    (0 < sumValues d →
      normalize_probabilities d = d.map (fun p => (p.1, p.2 / sumValues d)) ∧
      sumValues (normalize_probabilities d) = 1) ∧
    (normalize_probabilities d).map Prod.fst = d.map Prod.fst := by
  refine ⟨?_, ?_, normalize_probabilities_fst d⟩
  · intro h
    simp [normalize_probabilities, h]
  · intro h
    have hne : ¬ sumValues d ≤ 0 := not_le.mpr h
    have heq : normalize_probabilities d = d.map (fun p => (p.1, p.2 / sumValues d)) := by
      simp [normalize_probabilities, hne]
    refine ⟨heq, ?_⟩
    rw [heq]
    show ((d.map (fun p : String × ℚ => (p.1, p.2 / sumValues d))).map Prod.snd).sum = 1
    have hmm : (d.map (fun p : String × ℚ => (p.1, p.2 / sumValues d))).map Prod.snd
        = (d.map Prod.snd).map (fun x => x / sumValues d) := by
      rw [List.map_map, List.map_map]
      rfl
    rw [hmm, sum_map_div]
    exact div_self (ne_of_gt h)

/-- Witness for C2 at the concrete weight map {happy: 3, sad: 1}. -/
theorem C2_normalize_spec_witness :
    normalize_probabilities [("happy", 3), ("sad", 1)] = [("happy", 3/4), ("sad", 1/4)] ∧
    sumValues (normalize_probabilities [("happy", 3), ("sad", 1)]) = 1 := by
  have h := (C2_normalize_spec [("happy", 3), ("sad", 1)]).2.1 (by decide)
  refine ⟨?_, h.2⟩
  rw [h.1]
  decide

/-- Claim C3 counterexample: a single modality with confidence 0 and a
non-empty distribution makes fuse return (some "happy", 0.0, {happy: 0.0}),
not (none, 0.0, {}) as the claim states for all-zero-confidence inputs. -/
theorem C3_counterexample :
    fuse_emotions [("face", 0, [("happy", 1)])] []
      = (some "happy", 0, [("happy", 0)]) ∧
    fuse_emotions [("face", 0, [("happy", 1)])] [] ≠ (none, 0, []) := by decide

/-- Claim C3 (amended): a modality with an empty distribution contributes
nothing (dropping all such modalities leaves fuse unchanged), and when every
modality has an empty distribution fuse returns (none, 0.0, {}).  A modality
with confidence 0 but a non-empty distribution is not inert: it inserts its
labels with weight 0 (see the counterexample). -/
theorem C3_amended (modalities : List (String × ℚ × Dist)) (weights : Dist) :
    fuse_emotions modalities weights
      = fuse_emotions (modalities.filter (fun m => decide (m.2.2 ≠ []))) weights ∧
    ((∀ m ∈ modalities, m.2.2 = []) → fuse_emotions modalities weights = (none, 0, [])) := by
  have hagg : aggregateModalities modalities weights
      = aggregateModalities (modalities.filter (fun m => decide (m.2.2 ≠ []))) weights := by
    simpa [aggregateModalities] using foldl_fuseStep_filter modalities weights []
  constructor
  · simp only [fuse_emotions, hagg]
  · intro hall
    have hfil : modalities.filter (fun m => decide (m.2.2 ≠ [])) = [] := by
      rw [List.filter_eq_nil_iff]
      intro a ha
      simp [hall a ha]
    have h1 : fuse_emotions modalities weights
        = fuse_emotions (modalities.filter (fun m => decide (m.2.2 ≠ []))) weights := by
      simp only [fuse_emotions, hagg]
    rw [h1, hfil]
    rfl

/-- Witness for C3 (amended) on a single empty-distribution modality. -/
theorem C3_amended_witness :
    (∀ m ∈ [("face", (50 : ℚ), ([] : Dist))], m.2.2 = ([] : Dist)) ∧
    fuse_emotions [("face", 50, [])] [] = (none, 0, []) :=
  ⟨by decide, (C3_amended [("face", 50, [])] []).2 (by decide)⟩

/-- Claim C10: whenever fuse returns a dominant label, the returned
confidence is exactly the value stored for that label in the returned
distribution, and that value is maximal in the distribution. -/
theorem C10_dominant_consistency (modalities : List (String × ℚ × Dist)) (weights : Dist)
    (l : String) (conf : ℚ) (dist : Dist)
    (h : fuse_emotions modalities weights = (some l, conf, dist)) :
    dist.lookup l = some conf ∧ ∀ p ∈ dist, p.2 ≤ conf := by
  have hnodup := aggregate_nodup modalities weights
  simp only [fuse_emotions] at h
  by_cases h0 : aggregateModalities modalities weights = []
  · rw [if_pos h0] at h
    simp at h
  · rw [if_neg h0] at h
    cases hn : normalize_probabilities (aggregateModalities modalities weights) with
    | nil => exact absurd hn (normalize_probabilities_ne_nil _ h0)
    | cons f fs =>
      rw [hn] at h
      simp only [Prod.mk.injEq, Option.some.injEq] at h
      obtain ⟨h1, h2, h3⟩ := h
      subst h1
      subst h2
      subst h3
      have hkeys : ((f :: fs).map Prod.fst).Nodup := by
        have := normalize_probabilities_fst (aggregateModalities modalities weights)
        rw [hn] at this
        rw [this]
        exact hnodup
      have hmem := pyMaxBySnd_mem f fs
      constructor
      · apply lookup_eq_of_nodup
        · rw [map_fst_map_pair]
          exact hkeys
        · exact List.mem_map.mpr ⟨pyMaxBySnd f fs, hmem, rfl⟩
      · intro p hp
        obtain ⟨q, hq, rfl⟩ := List.mem_map.mp hp
        have hle := pyMaxBySnd_le f fs q hq
        exact pyRound1_mono (by nlinarith)

/-- Witness for C10 at a single-modality input where the dominant is "a"
with confidence 75. -/
theorem C10_dominant_consistency_witness :
    ([("a", (75 : ℚ)), ("b", 25)] : Dist).lookup "a" = some 75 ∧
    ∀ p ∈ ([("a", (75 : ℚ)), ("b", 25)] : Dist), p.2 ≤ 75 :=
  C10_dominant_consistency [("face", 100, [("a", 3), ("b", 1)])] [] "a" 75
    [("a", 75), ("b", 25)] (by decide)

/-- Claim C7 counterexample: for the distribution {happy: 0},
adjust_probabilities with the global culture returns {}, while
normalize × 100 (rounded) returns {happy: 0}; the claimed identity fails
for distributions with non-positive entries. -/
theorem C7_counterexample :
    adjust_probabilities [("happy", 0)] (some "global") "face" = [] ∧
    (normalize_probabilities [("happy", 0)]).map (fun p => (p.1, pyRound1 (p.2 * 100)))
      = [("happy", 0)] ∧
    adjust_probabilities [("happy", 0)] (some "global") "face"
      ≠ (normalize_probabilities [("happy", 0)]).map (fun p => (p.1, pyRound1 (p.2 * 100))) := by
  decide

/-- Claim C7 (amended): for every distribution whose labels are lower-case
and distinct and whose values are all strictly positive, adjusting with the
global culture profile equals normalize × 100 rounded to one decimal
(global multipliers are all 1.0). -/
theorem C7_amended (d : Dist)
    (hpos : ∀ p ∈ d, 0 < p.2)
    (hlow : ∀ p ∈ d, lowerStr p.1 = p.1)
    (hnd : (d.map Prod.fst).Nodup) :
    adjust_probabilities d (some "global") "face"
      = (normalize_probabilities d).map (fun p => (p.1, pyRound1 (p.2 * 100))) := by
  by_cases hd : d = []
  · subst hd
    rfl
  · have htot : 0 < sumValues d := sumValues_pos d hd hpos
    have hfold := adjust_fold_unit
      ((((CULTURE_WEIGHTS.lookup (normalize_culture (some "global"))).getD []).lookup
        "face").getD []) d []
      hpos hlow (fun p _ => rfl) (by simpa using hnd)
    simp only [adjust_probabilities, if_neg hd]
    rw [hfold]
    simp only [List.nil_append, if_neg hd, if_neg (not_le.mpr htot)]
    simp only [normalize_probabilities, if_neg (not_le.mpr htot), List.map_map]
    rfl

/-- Witness for C7 (amended) at the distribution {happy: 3, sad: 1}. -/
theorem C7_amended_witness :
    adjust_probabilities [("happy", 3), ("sad", 1)] (some "global") "face"
      = (normalize_probabilities [("happy", 3), ("sad", 1)]).map
          (fun p => (p.1, pyRound1 (p.2 * 100))) :=
  C7_amended [("happy", 3), ("sad", 1)] (by decide) (by decide) (by decide)

/-! Claim theorems for the temporal forecast engine. -/

theorem slotCombined_nonneg (prepared : List PreparedEvent) (rec : Dist) (target : ℚ) :
    ∀ x ∈ slotCombined prepared rec target, 0 ≤ x.2 := by
  intro x hx
  simp only [slotCombined] at hx
  split at hx
  · exact overall_distribution_nonneg prepared x hx
  · exact combine_distributions_nonneg _ _ _ _ x hx

theorem slotStep_good (prepared : List PreparedEvent) (rec : Dist) (now : ℚ) (today : ℤ)
    (st : List ForecastInsight × Option String) (slot : String × ℚ)
    (h : ∀ i ∈ st.1, (0 ≤ i.confidence ∧ i.confidence ≤ 100) ∧ 3 ≤ i.insights.length) :
    ∀ i ∈ (slotStep prepared rec now today st slot).1,
      (0 ≤ i.confidence ∧ i.confidence ≤ 100) ∧ 3 ≤ i.insights.length := by
  simp only [slotStep]
  by_cases hc : slotCombined prepared rec (now + slot.2) = []
  · rw [if_pos hc]
    exact h
  · rw [if_neg hc]
    cases hs : sortDescBySnd (slotCombined prepared rec (now + slot.2)) with
    | nil => exact h
    | cons top rest =>
      intro i hi
      rcases List.mem_append.mp hi with hold | hnew
      · exact h i hold
      · rw [List.mem_singleton] at hnew
        subst hnew
        have htop : (0 : ℚ) ≤ top.2 := by
          have hmem : top ∈ sortDescBySnd (slotCombined prepared rec (now + slot.2)) := by
            rw [hs]
            exact List.mem_cons_self _ _
          exact slotCombined_nonneg prepared rec (now + slot.2) top (mem_sortDescBySnd hmem)
        refine ⟨⟨?_, ?_⟩, ?_⟩
        · exact pyRound1_nonneg (le_min (mul_nonneg htop (by norm_num)) (by norm_num))
        · exact pyRound1_le_hundred (min_le_right _ _)
        · show 3 ≤ (match st.2 with
            | some prev =>
              if prev ≠ "" ∧ prev ≠ top.1 then
                build_insights (now + slot.2) top.1 rec
                  (pattern_distribution prepared (now + slot.2))
                  (slotCombined prepared rec (now + slot.2)) rest.head?
                  ++ [shiftSentence prev top.1]
              else
                build_insights (now + slot.2) top.1 rec
                  (pattern_distribution prepared (now + slot.2))
                  (slotCombined prepared rec (now + slot.2)) rest.head?
            | none =>
              build_insights (now + slot.2) top.1 rec
                (pattern_distribution prepared (now + slot.2))
                (slotCombined prepared rec (now + slot.2)) rest.head?).length
          cases st.2 with
          | none => exact build_insights_length _ _ _ _ _ _
          | some prev =>
            split
            · split
              · simp only [List.length_append]
                have := build_insights_length (now + slot.2) top.1 rec
                  (pattern_distribution prepared (now + slot.2))
                  (slotCombined prepared rec (now + slot.2)) rest.head?
                omega
              · exact build_insights_length _ _ _ _ _ _
            · exact build_insights_length _ _ _ _ _ _

theorem foldl_slotStep_good (prepared : List PreparedEvent) (rec : Dist) (now : ℚ)
    (today : ℤ) (slots : List (String × ℚ)) (st : List ForecastInsight × Option String)
    (h : ∀ i ∈ st.1, (0 ≤ i.confidence ∧ i.confidence ≤ 100) ∧ 3 ≤ i.insights.length) :
    ∀ i ∈ (slots.foldl (slotStep prepared rec now today) st).1,
      (0 ≤ i.confidence ∧ i.confidence ≤ 100) ∧ 3 ≤ i.insights.length := by
  induction slots generalizing st with
  | nil => exact h
  | cons s ss ih =>
    simp only [List.foldl_cons]
    exact ih _ (slotStep_good prepared rec now today st s h)

theorem slotStep_strip (prepared : List PreparedEvent) (rec : Dist) (now : ℚ)
    (t1 t2 : ℤ) (slot : String × ℚ) (st1 st2 : List ForecastInsight × Option String)
    (h1 : st1.1.map stripLabel = st2.1.map stripLabel) (h2 : st1.2 = st2.2) :
    (slotStep prepared rec now t1 st1 slot).1.map stripLabel
      = (slotStep prepared rec now t2 st2 slot).1.map stripLabel ∧
    (slotStep prepared rec now t1 st1 slot).2 = (slotStep prepared rec now t2 st2 slot).2 := by
  simp only [slotStep]
  by_cases hc : slotCombined prepared rec (now + slot.2) = []
  · rw [if_pos hc, if_pos hc]
    exact ⟨h1, h2⟩
  · rw [if_neg hc, if_neg hc]
    cases hs : sortDescBySnd (slotCombined prepared rec (now + slot.2)) with
    | nil => exact ⟨h1, h2⟩
    | cons top rest =>
      rw [h2]
      refine ⟨?_, rfl⟩
      simp only [List.map_append, h1]
      rfl

theorem foldl_slotStep_strip (prepared : List PreparedEvent) (rec : Dist) (now : ℚ)
    (t1 t2 : ℤ) (slots : List (String × ℚ)) (st1 st2 : List ForecastInsight × Option String)
    (h1 : st1.1.map stripLabel = st2.1.map stripLabel) (h2 : st1.2 = st2.2) :
    (slots.foldl (slotStep prepared rec now t1) st1).1.map stripLabel
      = (slots.foldl (slotStep prepared rec now t2) st2).1.map stripLabel ∧
    (slots.foldl (slotStep prepared rec now t1) st1).2
      = (slots.foldl (slotStep prepared rec now t2) st2).2 := by
  induction slots generalizing st1 st2 with
  | nil => exact ⟨h1, h2⟩
  | cons s ss ih =>
    simp only [List.foldl_cons]
    obtain ⟨g1, g2⟩ := slotStep_strip prepared rec now t1 t2 s st1 st2 h1 h2
    exact ih _ _ g1 g2

/-- Claim C5 (code-bug evidence): a fetched event whose timestamp fails to
parse makes fetch_events raise (strict `pd.to_datetime`), so
generate_forecast propagates the exception instead of dropping the event as
the claim (and the coerce-and-drop logic in _load_history) intends. -/
theorem C5_unparseable_timestamp_raises (decay : ℚ → ℚ) (now : ℚ) (today : ℤ) :
    generate_forecast decay
      [{ timestamp := none, emotion := some "happy", confidence := 50 }] now today
      = .error () := rfl

/-- Claim C8: on an empty fetched history generate_forecast returns the
empty list, raising nothing and emitting no insight. -/
theorem C8_empty_history (decay : ℚ → ℚ) (now : ℚ) (today : ℤ) :
    generate_forecast decay [] now today = .ok [] := rfl

/-- Claim C4 counterexample: with the two retained events 104 and 80 hours
old (recency window empty), the slot combined distribution used by the
forecast is the 0.6/0.4 blend of the OVERALL distribution
{happy: 1/2, sad: 1/2} with the pattern distribution {happy: 2/3, sad: 1/3},
namely {happy: 17/30, sad: 13/30} (emitted confidence 56.7), not the pattern
distribution alone (which would give confidence 66.7). -/
theorem C4_counterexample :
    recent_distribution (fun _ => 1)
        (prepareEvents [⟨20, "happy", 100⟩, ⟨44, "sad", 50⟩] 124) = [] ∧
    pattern_distribution (prepareEvents [⟨20, "happy", 100⟩, ⟨44, "sad", 50⟩] 124) 130
      = [("happy", 2/3), ("sad", 1/3)] ∧
    slotCombined (prepareEvents [⟨20, "happy", 100⟩, ⟨44, "sad", 50⟩] 124)
        (overall_distribution (prepareEvents [⟨20, "happy", 100⟩, ⟨44, "sad", 50⟩] 124)) 130
      = [("happy", 17/30), ("sad", 13/30)] ∧
    slotCombined (prepareEvents [⟨20, "happy", 100⟩, ⟨44, "sad", 50⟩] 124)
        (overall_distribution (prepareEvents [⟨20, "happy", 100⟩, ⟨44, "sad", 50⟩] 124)) 130
      ≠ pattern_distribution (prepareEvents [⟨20, "happy", 100⟩, ⟨44, "sad", 50⟩] 124) 130 ∧
    ((generate_forecast (fun _ => 1)
        [{ timestamp := some 20, emotion := some "happy", confidence := 100 },
         { timestamp := some 44, emotion := some "sad", confidence := 50 }] 124 5).toOption.bind
      (fun lst => lst.head?.map ForecastInsight.confidence)) = some (567/10) ∧
    pyRound1 (min ((2/3 : ℚ) * 100) 100) = 667/10 :=
  ⟨by decide, by decide, by decide, by decide, by decide, by decide⟩

set_option maxHeartbeats 2000000 in
/-- Claim C4 (amended): when the recency distribution is empty, the
forecaster substitutes the overall frequency distribution for the recency
component, so each slot's combined distribution is the 0.6/0.4 blend of the
overall distribution with the slot's pattern distribution (with the
slot-level fallback to the overall distribution alone only when combining
yields an empty map, as encoded in slotCombined). -/
theorem C4_amended (decay : ℚ → ℚ) (history : List Event) (now : ℚ) (today : ℤ)
    (h : recent_distribution decay (prepareEvents history now) = []) :
    generateForecastFromHistory decay history now today
      = forecastLoop (prepareEvents history now)
          (overall_distribution (prepareEvents history now)) now today := by
  by_cases hd : history = []
  · subst hd
    rfl
  · unfold generateForecastFromHistory recencyBase
    rw [if_neg hd, h, if_pos rfl]

/-- Witness for C4 (amended) at a one-event history 104 hours old. -/
theorem C4_amended_witness :
    recent_distribution (fun _ => (1 : ℚ)) (prepareEvents [⟨20, "happy", 100⟩] 124) = [] ∧
    generateForecastFromHistory (fun _ => 1) [⟨20, "happy", 100⟩] 124 5
      = forecastLoop (prepareEvents [⟨20, "happy", 100⟩] 124)
          (overall_distribution (prepareEvents [⟨20, "happy", 100⟩] 124)) 124 5 :=
  ⟨by decide, C4_amended (fun _ => 1) [⟨20, "happy", 100⟩] 124 5 (by decide)⟩

set_option maxHeartbeats 2000000 in
/-- Claim C6 counterexample: with identical fetched history and identical
`now`, changing only the ambient wall-clock date read by _resolve_slot_label
changes the first slot's emitted label ("Later today" vs
"Soon (Friday 10:00)"), so the output is not determined by history and `now`
alone. -/
theorem C6_counterexample :
    ((generate_forecast (fun _ => 1)
        [{ timestamp := some 0, emotion := some "happy", confidence := 80 }] 100 4).toOption.bind
      (fun lst => lst.head?.map ForecastInsight.label)) = some "Later today" ∧
    ((generate_forecast (fun _ => 1)
        [{ timestamp := some 0, emotion := some "happy", confidence := 80 }] 100 0).toOption.bind
      (fun lst => lst.head?.map ForecastInsight.label)) = some "Soon (Friday 10:00)" ∧
    (generate_forecast (fun _ => 1)
        [{ timestamp := some 0, emotion := some "happy", confidence := 80 }] 100 4).toOption
      ≠ (generate_forecast (fun _ => 1)
        [{ timestamp := some 0, emotion := some "happy", confidence := 80 }] 100 0).toOption :=
  ⟨by decide, by decide, by decide⟩

/-- Claim C6 (amended): generate_forecast is deterministic given the fetched
history and the `now` argument in every output component except the
displayed slot label, which additionally depends on the ambient wall-clock
date consulted by _resolve_slot_label. -/
theorem C6_amended (decay : ℚ → ℚ) (rows : List RawEvent) (now : ℚ) (t1 t2 : ℤ) :
    (generate_forecast decay rows now t1).map (fun lst => lst.map stripLabel)
      = (generate_forecast decay rows now t2).map (fun lst => lst.map stripLabel) := by
  have key : ∀ history : List Event,
      (generateForecastFromHistory decay history now t1).map stripLabel
        = (generateForecastFromHistory decay history now t2).map stripLabel := by
    intro history
    unfold generateForecastFromHistory
    by_cases hd : history = []
    · rw [if_pos hd, if_pos hd]
    · rw [if_neg hd, if_neg hd]
      unfold forecastLoop
      exact (foldl_slotStep_strip (prepareEvents history now)
        (recencyBase decay (prepareEvents history now)) now t1 t2 SLOT_DEFINITIONS
        ([], none) ([], none) rfl rfl).1
  unfold generate_forecast
  cases load_history rows with
  | error e => rfl
  | ok history =>
    show Except.ok ((generateForecastFromHistory decay history now t1).map stripLabel)
        = Except.ok ((generateForecastFromHistory decay history now t2).map stripLabel)
    rw [key history]

/-- Claim C9: every ForecastInsight emitted by generate_forecast has its
confidence within [0, 100] and carries at least three insight sentences. -/
theorem C9_insight_invariants (decay : ℚ → ℚ) (rows : List RawEvent) (now : ℚ)
    (today : ℤ) (L : List ForecastInsight)
    (h : generate_forecast decay rows now today = .ok L) :
    ∀ i ∈ L, (0 ≤ i.confidence ∧ i.confidence ≤ 100) ∧ 3 ≤ i.insights.length := by
  unfold generate_forecast at h
  cases hl : load_history rows with
  | error e =>
    rw [hl] at h
    simp at h
  | ok history =>
    rw [hl] at h
    have hL : generateForecastFromHistory decay history now today = L := by
      simpa using h
    subst hL
    unfold generateForecastFromHistory
    by_cases hd : history = []
    · rw [if_pos hd]
      intro i hi
      cases hi
    · rw [if_neg hd]
      unfold forecastLoop
      exact foldl_slotStep_good _ _ _ _ SLOT_DEFINITIONS ([], none)
        (by intro i hi; cases hi)

/-- Witness for C9 at a concrete one-event history: the first emitted
insight of that forecast has confidence in [0, 100] and three sentences. -/
theorem C9_insight_invariants_witness :
    (0 ≤ (((generate_forecast (fun _ => (1 : ℚ))
          [{ timestamp := some 20, emotion := some "happy", confidence := 100 }]
          124 5).toOption.getD []).headD
        ⟨"", 0, "", 0, "", "", [], none⟩).confidence ∧
      (((generate_forecast (fun _ => (1 : ℚ))
          [{ timestamp := some 20, emotion := some "happy", confidence := 100 }]
          124 5).toOption.getD []).headD
        ⟨"", 0, "", 0, "", "", [], none⟩).confidence ≤ 100) ∧
    3 ≤ (((generate_forecast (fun _ => (1 : ℚ))
          [{ timestamp := some 20, emotion := some "happy", confidence := 100 }]
          124 5).toOption.getD []).headD
        ⟨"", 0, "", 0, "", "", [], none⟩).insights.length := by
  have h := C9_insight_invariants (fun _ => (1 : ℚ))
    [{ timestamp := some 20, emotion := some "happy", confidence := 100 }] 124 5
    ((generate_forecast (fun _ => (1 : ℚ))
      [{ timestamp := some 20, emotion := some "happy", confidence := 100 }]
      124 5).toOption.getD []) (by rfl)
  exact h _ (by decide)

end EmotionCore
